import Mathlib

/-!
Verification of the rclone (artpar/rclone) specification claims against a
shallow embedding of the relevant source code.

The embedding covers:
* the azureblob backend (`backend/azureblob/azureblob.go`, in `src/unnamed/part_010`):
  `NewFs`, `parsePath`, option validation, `Mkdir`, `isEmpty`/`Rmdir`,
  `Object.Hash`, `SetModTime`/`setMetadata`/`ModTime`, and `uploadMultipart`;
* the webdav backend (same file, second half): `_mkdir`/`mkdir`/`Mkdir` and
  `dirNotEmpty`/`purgeCheck`/`Rmdir`;
* the command dispatcher's `resolveExitCode` (`cmd/cmd.go`, in `src/unnamed/part_013`);
* the VFS open-flag contract (test generator `vfs/make_open_tests.go`; the
  `OpenFile` implementation itself is not part of the provided sources, so it
  is modelled from the specification).

Go strings are embedded as `List Char`, Go byte slices as `List Nat` with
every element `< 256`, Go `time.Time` as an explicit broken-down
`GoDateTime` record (the layouts used by the source only ever inspect those
fields).  Remote calls are modelled by explicit outcome parameters.
-/

/-! ### Decimal digit printing and parsing helpers

`padNat w v` is the zero-padded `w`-digit decimal rendering of `v` (for
`v < 10 ^ w`), as produced by Go's `Format` for a fixed-width numeric
layout element.  `parseDigitsFix` and `digitsVal` mirror Go's fixed-width
and greedy digit scanning in `time.Parse`. -/

def natDigitChar (n : Nat) : Char := Char.ofNat (48 + n)

def padNat : Nat → Nat → List Char
  | 0, _ => []
  | w + 1, v => natDigitChar (v / 10 ^ w) :: padNat w (v % 10 ^ w)

def digitsVal (acc : Nat) (cs : List Char) : Nat :=
  cs.foldl (fun a c => a * 10 + (c.toNat - 48)) acc

def parseDigitsFix : Nat → Nat → List Char → Option (Nat × List Char)
  | 0, acc, cs => some (acc, cs)
  | _ + 1, _, [] => none
  | w + 1, acc, c :: cs =>
      if c.isDigit then parseDigitsFix w (acc * 10 + (c.toNat - 48)) cs else none

def expectCh (c : Char) : List Char → Option (List Char)
  | [] => none
  | d :: cs => if d = c then some cs else none

/-! ### Base64 (Go `encoding/base64` StdEncoding) and lowercase hex
(Go `encoding/hex`) on byte lists. -/

def b64Alphabet : List Char :=
  "ABCDEFGHIJKLMNOPQRSTUVWXYZabcdefghijklmnopqrstuvwxyz0123456789+/".toList

def b64Char (n : Nat) : Char := b64Alphabet.getD n 'A'

def b64Val (c : Char) : Option Nat := b64Alphabet.indexOf? c

/-- Go `base64.StdEncoding.EncodeToString`: three input bytes become four
alphabet characters; a final group of one or two bytes is padded with `=`. -/
def b64EncodeList : List Nat → List Char
  | [] => []
  | [a] => [b64Char (a / 4), b64Char (a % 4 * 16), '=', '=']
  | [a, b] => [b64Char (a / 4), b64Char (a % 4 * 16 + b / 16), b64Char (b % 16 * 4), '=']
  | a :: b :: c :: rest =>
      [b64Char (a / 4), b64Char (a % 4 * 16 + b / 16), b64Char (b % 16 * 4 + c / 64),
       b64Char (c % 64)] ++ b64EncodeList rest

/-- Go `base64.StdEncoding.DecodeString` restricted to well-formed groups of
four characters (the only inputs the embedded code feeds it); any other
shape is a decode error (`none`). -/
def b64DecodeList : List Char → Option (List Nat)
  | [] => some []
  | p :: q :: r :: s :: rest =>
    match b64Val p, b64Val q with
    | some vp, some vq =>
      if r = '=' ∧ s = '=' ∧ rest = [] then some [vp * 4 + vq / 16]
      else
        match b64Val r with
        | some vr =>
          if s = '=' ∧ rest = [] then some [vp * 4 + vq / 16, vq % 16 * 16 + vr / 4]
          else
            match b64Val s, b64DecodeList rest with
            | some vs, some tail =>
                some ((vp * 4 + vq / 16) :: (vq % 16 * 16 + vr / 4) :: (vr % 4 * 64 + vs) :: tail)
            | _, _ => none
        | none => none
    | _, _ => none
  | _ => none

def hexAlphabet : List Char := "0123456789abcdef".toList

def hexDigitChar (n : Nat) : Char := hexAlphabet.getD n '0'

/-- Go `hex.EncodeToString`: two lowercase hex digits per byte. -/
def hexEncodeList (bs : List Nat) : List Char :=
  bs.flatMap (fun b => [hexDigitChar (b / 16), hexDigitChar (b % 16)])

/-- Go `binary.LittleEndian.PutUint64` into an 8-byte buffer. -/
def putUint64LE (n : Nat) : List Nat :=
  (List.range 8).map (fun i => n / 256 ^ i % 256)

/-! ### Go `time.Time` and the two layouts used by the azureblob backend

The backend stores modification times with
`timeFormatOut = "2006-01-02T15:04:05.000000000Z07:00"` (RFC3339 with a
fixed 9-digit fractional second) and reads them back with
`timeFormatIn = time.RFC3339`.  A Go `time.Time` is embedded as its
broken-down wall-clock fields plus the zone offset in minutes (`Format`
and `Parse` with these layouts only ever inspect those fields; a zone
offset always is a whole number of minutes in the `07:00` layout). -/

structure GoDateTime where
  year : Nat
  month : Nat
  day : Nat
  hour : Nat
  minute : Nat
  second : Nat
  nanos : Nat
  offsetMin : Int
deriving DecidableEq

/-- The zero `time.Time` (what `o.modTime.IsZero()` compares against):
January 1, year 1, 00:00:00 UTC. -/
def goZeroTime : GoDateTime := ⟨1, 1, 1, 0, 0, 0, 0, 0⟩

def isLeapYear (y : Nat) : Bool := y % 4 = 0 && (y % 100 != 0 || y % 400 = 0)

def daysInMonth (y m : Nat) : Nat :=
  if m = 2 then (if isLeapYear y then 29 else 28)
  else if m = 4 ∨ m = 6 ∨ m = 9 ∨ m = 11 then 30
  else 31

/-- The field ranges of a normalized Go `time.Time` that is representable
in RFC3339 (four-digit year). -/
def ValidDateTime (t : GoDateTime) : Prop :=
  t.year ≤ 9999 ∧ 1 ≤ t.month ∧ t.month ≤ 12 ∧ 1 ≤ t.day ∧
  t.day ≤ daysInMonth t.year t.month ∧
  t.hour ≤ 23 ∧ t.minute ≤ 59 ∧ t.second ≤ 59 ∧ t.nanos < 1000000000 ∧
  -(24 * 60) < t.offsetMin ∧ t.offsetMin < 24 * 60

instance (t : GoDateTime) : Decidable (ValidDateTime t) := by
  unfold ValidDateTime; infer_instance

/-- Go `Format` for the layout element `Z07:00`: `Z` for UTC, otherwise a
sign followed by zero-padded hours and minutes of the zone offset. -/
def formatTZ (off : Int) : List Char :=
  if off = 0 then ['Z']
  else (if off > 0 then '+' else '-') ::
    (padNat 2 (off.natAbs / 60) ++ ':' :: padNat 2 (off.natAbs % 60))

/-- Go `modTime.Format(timeFormatOut)` with
`timeFormatOut = "2006-01-02T15:04:05.000000000Z07:00"` (source constant,
azureblob). -/
def formatTimeOut (t : GoDateTime) : List Char :=
  padNat 4 t.year ++ '-' :: padNat 2 t.month ++ '-' :: padNat 2 t.day ++
  'T' :: padNat 2 t.hour ++ ':' :: padNat 2 t.minute ++ ':' :: padNat 2 t.second ++
  '.' :: padNat 9 t.nanos ++ formatTZ t.offsetMin

/-- Go `time.Parse` accepts an optional fractional second after the seconds
element even when the layout (RFC3339) has none: a period followed by at
least one digit; all consecutive digits are consumed and the first nine
give the nanoseconds. -/
def parseFrac (cs : List Char) : Option (Nat × List Char) :=
  match cs with
  | [] => some (0, [])
  | c :: rest =>
    if c = '.' then
      match rest with
      | [] => some (0, cs)
      | d :: _ =>
        if d.isDigit then
          let ds := rest.takeWhile Char.isDigit
          let tail := rest.dropWhile Char.isDigit
          let ds9 := ds.take 9
          some (digitsVal 0 ds9 * 10 ^ (9 - ds9.length), tail)
        else some (0, cs)
    else some (0, cs)

/-- Go `time.Parse` for the trailing `Z07:00` layout element: `Z`, or a
sign with `hh:mm`, which must end the input. -/
def parseTZ (cs : List Char) : Option Int :=
  match cs with
  | [] => none
  | c :: rest =>
    if c = 'Z' then (if rest = [] then some 0 else none)
    else if c = '+' ∨ c = '-' then
      match parseDigitsFix 2 0 rest with
      | none => none
      | some (h, rest2) =>
        match expectCh ':' rest2 with
        | none => none
        | some rest3 =>
          match parseDigitsFix 2 0 rest3 with
          | some (m, []) =>
              if h ≤ 23 ∧ m ≤ 59 then some ((if c = '+' then 1 else -1) * (h * 60 + m)) else none
          | _ => none
    else none

/-- Go `time.Parse(time.RFC3339, s)` (the azureblob `timeFormatIn`):
`yyyy-mm-ddThh:mm:ss`, an optional fractional second, and a zone
designator, with the field range checks Go performs. -/
def parseRFC3339 (s : List Char) : Option GoDateTime := do
  let (y, r1) ← parseDigitsFix 4 0 s
  let r2 ← expectCh '-' r1
  let (mo, r3) ← parseDigitsFix 2 0 r2
  let r4 ← expectCh '-' r3
  let (d, r5) ← parseDigitsFix 2 0 r4
  let r6 ← expectCh 'T' r5
  let (h, r7) ← parseDigitsFix 2 0 r6
  let r8 ← expectCh ':' r7
  let (mi, r9) ← parseDigitsFix 2 0 r8
  let r10 ← expectCh ':' r9
  let (se, r11) ← parseDigitsFix 2 0 r10
  let (ns, r12) ← parseFrac r11
  let off ← parseTZ r12
  if 1 ≤ mo ∧ mo ≤ 12 ∧ 1 ≤ d ∧ d ≤ daysInMonth y mo ∧ h ≤ 23 ∧ mi ≤ 59 ∧ se ≤ 59 then
    pure ⟨y, mo, d, h, mi, se, ns, off⟩
  else none

/-! ### Shared error variants (mirroring the `fs` package sentinel errors and
the wrapped backend errors the embedded functions produce). -/

inductive FsErr
  | dirNotFound
  | objectNotFound
  | directoryNotEmpty
  | unsupportedHash
  | decodeMD5Failed
  | uploadCutoffTooBig
  | chunkSizeTooBig
  | needCredentials
  | tooBigForChunks
  | mkdirFailed
  | remoteCall
  | apiError (status : Nat)
  | other
deriving DecidableEq

namespace azureblob

/-! ### azureblob backend constants (source lines 53-68). -/

def modTimeKey : String := "mtime"

def maxTotalParts : Nat := 50000

def defaultChunkSize : Nat := 4 * 1024 * 1024

def maxChunkSize : Nat := 100 * 1024 * 1024

def defaultUploadCutoff : Nat := 256 * 1024 * 1024

def maxUploadCutoff : Nat := 256 * 1024 * 1024

/-- `Options` (config fields of the azureblob backend). -/
structure Options where
  account : String
  key : String
  endpoint : String
  sasURL : String
  uploadCutoff : Nat
  chunkSize : Nat
deriving DecidableEq

/-- Blob metadata: a Go `map[string]string`.  Embedded as an association
list updated functionally; `metaSet` is Go map assignment, `metaLookup` is
Go map indexing with `ok`. -/
def MetaMap : Type := List (String × List Char)

instance : DecidableEq MetaMap := by unfold MetaMap; infer_instance

def metaSet (m : MetaMap) (k : String) (v : List Char) : MetaMap :=
  (k, v) :: m.filter (fun kv => kv.1 ≠ k)

def metaLookup (m : MetaMap) (k : String) : Option (List Char) :=
  (m.find? (fun kv => kv.1 = k)).map (fun kv => kv.2)

def metaLen (m : MetaMap) : Nat := m.length

/-- `Object` (the azureblob object fields the embedded methods touch). -/
structure Object where
  remote : List Char
  modTime : GoDateTime
  md5 : List Char
  size : Nat
  meta : MetaMap
deriving DecidableEq

/-- `(*Object).setMetadata` (source lines 813-826): keep the metadata when
non-empty and, when an `mtime` key is present, parse it with
`timeFormatIn = time.RFC3339`; on a parse failure the zero `time.Time` is
stored (the code logs and assigns the zero `when`). -/
def Object.setMetadata (o : Object) (metadata : MetaMap) : Object :=
  if 0 < metaLen metadata then
    let o1 := { o with meta := metadata }
    match metaLookup metadata modTimeKey with
    | some v =>
      match parseRFC3339 v with
      | some t => { o1 with modTime := t }
      | none => { o1 with modTime := goZeroTime }
    | none => o1
  else { o with meta := [] }

/-- The remote blob state a `GetProperties` call reports (the response
fields `decodeMetaDataFromPropertiesResponse` consumes; the client library
returns the MD5 as raw bytes there, which the code re-encodes). -/
structure BlobProperties where
  md5Raw : List Nat
  contentLength : Nat
  lastModified : GoDateTime
  metadata : MetaMap

/-- `(*Object).decodeMetaDataFromPropertiesResponse` (source lines 836-848). -/
def Object.decodeMetaDataFromPropertiesResponse (o : Object) (info : BlobProperties) : Object :=
  Object.setMetadata
    { o with md5 := b64EncodeList info.md5Raw,
             size := info.contentLength,
             modTime := info.lastModified }
    info.metadata

/-- `(*Object).readMetaData` (source lines 877-900): a no-op when a
modification time is already known; otherwise fetch the blob properties
(`none` models a `BlobNotFound`/404 response). -/
def Object.readMetaData (o : Object) (remote : Option BlobProperties) : Except FsErr Object :=
  if o.modTime ≠ goZeroTime then .ok o
  else
    match remote with
    | none => .error .objectNotFound
    | some info => .ok (o.decodeMetaDataFromPropertiesResponse info)

/-- `(*Object).ModTime` (source lines 928-932): attempt `readMetaData`
(ignoring its error) and return the object's modification time. -/
def Object.ModTimeOf (o : Object) (remote : Option BlobProperties) : GoDateTime :=
  match o.readMetaData remote with
  | .ok o2 => o2.modTime
  | .error _ => o.modTime

/-- `(*Object).SetModTime` (source lines 935-954): store
`modTime.Format(timeFormatOut)` under the `mtime` metadata key, issue the
`SetMetadata` remote call (`callOk` is its outcome), and on success record
the new modification time.  The returned pair is (error, object state
afterwards); on a failed call the metadata map has already been updated
but `o.modTime` has not. -/
def Object.SetModTime (o : Object) (modTime : GoDateTime) (callOk : Bool) :
    Option FsErr × Object :=
  let o1 := { o with meta := metaSet o.meta modTimeKey (formatTimeOut modTime) }
  if callOk then (none, { o1 with modTime := modTime }) else (some .remoteCall, o1)

/-- The hash kinds of the `fs/hash` registry that appear in this file. -/
inductive HashKind
  | md5
  | sha1
  | crc32
deriving DecidableEq

/-- `(*Object).Hash` (source lines 793-806): only MD5 is supported; an
unknown MD5 yields the empty string with no error; otherwise the stored
base64 representation is decoded and re-encoded as (lowercase) hex. -/
def Object.Hash (o : Object) (t : HashKind) : Except FsErr (List Char) :=
  if t ≠ .md5 then .error .unsupportedHash
  else if o.md5 = [] then .ok []
  else
    match b64DecodeList o.md5 with
    | none => .error .decodeMD5Failed
    | some data => .ok (hexEncodeList data)

/-! ### Paths: `parsePath` and the `path.Base`/`path.Dir` calls in `NewFs`.

`parsePath` (source lines 173-182) matches `^([^/]*)(.*)$` — the container
is everything before the first slash — and trims surrounding slashes from
the directory part.  `path.Dir` is `path.Clean` of everything before the
final slash; `goPathClean` embeds Go `path.Clean` for relative paths (the
only shape `NewFs` feeds it, since `parsePath` trims surrounding slashes):
split on slashes, drop empty and `.` elements, let `..` pop the previous
element unless there is none or it is itself a kept `..`, and render the
empty result as `.`.  `CleanRelPath` names the paths that `Clean` leaves
unchanged (no empty, `.` or `..` components). -/

def trimSlashes (l : List Char) : List Char :=
  ((l.dropWhile (fun c => c = '/')).reverse.dropWhile (fun c => c = '/')).reverse

def parsePath (path : List Char) : List Char × List Char :=
  (path.takeWhile (fun c => c ≠ '/'), trimSlashes (path.dropWhile (fun c => c ≠ '/')))

def splitSlash (l : List Char) : List (List Char) :=
  l.foldr (fun c acc => if c = '/' then [] :: acc else (c :: acc.headD []) :: acc.tail) [[]]

def joinSlash (parts : List (List Char)) : List Char :=
  (parts.intersperse ['/']).flatten

def CleanRelPath (p : List Char) : Prop :=
  p ≠ [] ∧ [] ∉ splitSlash p ∧ ['.'] ∉ splitSlash p ∧ ['.', '.'] ∉ splitSlash p

instance (p : List Char) : Decidable (CleanRelPath p) := by
  unfold CleanRelPath; infer_instance

/-- One element of Go `path.Clean`'s loop for a relative path, acting on
the reversed stack of output elements: empty and `.` elements are
dropped; `..` pops the previous element, except that with nothing to pop
— or only kept `..`s — a relative path keeps the `..`; anything else is
pushed. -/
def cleanStep (acc : List (List Char)) (e : List Char) : List (List Char) :=
  if e = [] ∨ e = ['.'] then acc
  else if e = ['.', '.'] then
    match acc with
    | [] => [['.', '.']]
    | t :: rest => if t = ['.', '.'] then e :: t :: rest else rest
  else e :: acc

/-- Go `path.Clean` on a relative path; an empty result renders as `.`. -/
def goPathClean (p : List Char) : List Char :=
  let elems := (splitSlash p).foldl cleanStep []
  if elems = [] then ['.'] else joinSlash elems.reverse

/-- Go `path.Base` on the non-empty, slash-trimmed paths `parsePath`
produces (no trailing slash): the part after the final slash. -/
def goPathBase (p : List Char) : List Char := (splitSlash p).getLastD []

/-- Go `path.Dir`: everything before the final slash (all but the last
component), cleaned; `.` when there is no slash. -/
def goPathDir (p : List Char) : List Char :=
  goPathClean (joinSlash ((splitSlash p).dropLast))

/-! ### `NewFs` (source lines 210-310). -/

/-- `Fs` (the azureblob remote handle fields the claims are about).  The
source never writes to `opt`, `container` or the handle identity after
construction, so a constructed value carries them unchanged for its
lifetime. -/
structure Fs where
  name : String
  container : List Char
  root : List Char
  opt : Options
deriving DecidableEq

/-- Outcome of the `f.NewObject(remote)` probe inside `NewFs`. -/
inductive ProbeResult
  | found
  | notFound
  | otherError
deriving DecidableEq

/-- The result triple of `NewFs`: the handle (when one is returned), whether
it was returned together with `fs.ErrorIsFile`, and the error otherwise. -/
structure NewFsOutcome where
  fs : Option Fs
  isFile : Bool
  err : Option FsErr
deriving DecidableEq

/-- The tail of `NewFs` after the credentials switch (source lines 271-309):
build the handle and, when the root within the container is non-empty, run
the file-or-directory probe on the last path component. -/
def NewFsWithContainer (name : String) (container directory : List Char) (opt : Options)
    (probe : ProbeResult) : NewFsOutcome :=
  let f0 : Fs := ⟨name, container, directory, opt⟩
  if directory ≠ [] then
    let oldRoot := directory ++ ['/']
    let dirPart := goPathDir directory
    let newRoot := if dirPart = ['.'] then [] else dirPart ++ ['/']
    match probe with
    | .notFound => ⟨some { f0 with root := oldRoot }, false, none⟩
    | .otherError => ⟨none, false, some .other⟩
    | .found => ⟨some { f0 with root := newRoot }, true, none⟩
  else ⟨some f0, false, none⟩

/-- `NewFs` (source lines 210-310).  Parameters model the external calls:
`sasContainer` is the container name `azblob.NewBlobURLParts` extracts from
a SAS URL, and `probe` is the outcome of the file-or-directory
`NewObject` probe.  URL parsing of the well-formed
`https://account.endpoint` string is treated as succeeding. -/
def NewFs (name : String) (root : List Char) (opt : Options)
    (sasContainer : List Char) (probe : ProbeResult) : NewFsOutcome :=
  if opt.uploadCutoff > maxUploadCutoff then ⟨none, false, some .uploadCutoffTooBig⟩
  else if opt.chunkSize > maxChunkSize then ⟨none, false, some .chunkSizeTooBig⟩
  else
    let (container0, directory) := parsePath root
    if opt.account ≠ "" ∧ opt.key ≠ "" then
      NewFsWithContainer name container0 directory opt probe
    else if opt.sasURL ≠ "" then
      if sasContainer ≠ [] then
        if container0 ≠ [] ∧ sasContainer ≠ container0 then ⟨none, false, some .other⟩
        else NewFsWithContainer name sasContainer directory opt probe
      else NewFsWithContainer name container0 directory opt probe
    else ⟨none, false, some .needCredentials⟩

/-! ### `Mkdir`, `isEmpty`, `deleteContainer`, `Rmdir`
(source lines 606-698). -/

/-- The per-`Fs` container bookkeeping guarded by `containerOKMu`. -/
structure MkState where
  containerOK : Bool
  containerDeleted : Bool
deriving DecidableEq

/-- Outcome of the `cntURL.Create` remote call inside `Mkdir`.  The pacer
retry loop is abstracted to the final outcome of the attempt sequence:
`containerBeingDeleted` keeps returning retryable errors until the pacer
gives up. -/
inductive CreateOutcome
  | ok
  | containerAlreadyExists
  | containerBeingDeleted
  | otherError
deriving DecidableEq

/-- Result of one `Mkdir` call: the state afterwards, the number of remote
`Create` calls issued, and the returned error. -/
structure MkdirOutcome where
  st : MkState
  remoteCalls : Nat
  err : Option FsErr
deriving DecidableEq

/-- `(*Fs).Mkdir` (source lines 606-637): return immediately when creation
already succeeded once; otherwise create the container, treating
`ContainerAlreadyExists` as success. -/
def Mkdir (st : MkState) (create : CreateOutcome) : MkdirOutcome :=
  if st.containerOK then ⟨st, 0, none⟩
  else
    match create with
    | .ok => ⟨⟨true, false⟩, 1, none⟩
    | .containerAlreadyExists => ⟨⟨true, false⟩, 1, none⟩
    | .containerBeingDeleted => ⟨⟨st.containerOK, true⟩, 1, some .mkdirFailed⟩
    | .otherError => ⟨st, 1, some .mkdirFailed⟩

/-- `(*Fs).isEmpty` (source lines 640-653): list one entry recursively from
the `Fs` root ( the `dir` argument is not used by the listing call) and
fail with `fs.ErrorDirectoryNotEmpty` when anything is found.
`listResult` is the recursive root listing (or the listing error). -/
def isEmpty (listResult : Except FsErr (List (List Char))) : Option FsErr :=
  match listResult with
  | .error e => some e
  | .ok entries => if entries = [] then none else some FsErr.directoryNotEmpty

/-- Outcome of the container `Delete` remote call. -/
inductive DeleteOutcome
  | ok
  | notFound
  | otherError
deriving DecidableEq

/-- What a `Rmdir` call did: the returned error and whether the container
was removed. -/
structure RmdirOutcome where
  err : Option FsErr
  deletedContainer : Bool
deriving DecidableEq

/-- `(*Fs).deleteContainer` (source lines 657-684). -/
def deleteContainer (del : DeleteOutcome) : RmdirOutcome :=
  match del with
  | .ok => ⟨none, true⟩
  | .notFound => ⟨some .dirNotFound, false⟩
  | .otherError => ⟨some .other, false⟩

/-- `(*Fs).Rmdir` (source lines 689-698): fail unless the emptiness check
passes; delete the container only when the handle is at the container
root. -/
def Rmdir (froot dir : List Char) (listResult : Except FsErr (List (List Char)))
    (del : DeleteOutcome) : RmdirOutcome :=
  match isEmpty listResult with
  | some e => ⟨some e, false⟩
  | none =>
    if froot ≠ [] ∨ dir ≠ [] then ⟨none, false⟩
    else deleteContainer del

/-! ### `uploadMultipart` (source lines 1026-1163). -/

def ceilDiv (s c : Nat) : Nat := s / c + (if s % c = 0 then 0 else 1)

/-- The chunk-size loop at the top of `uploadMultipart` (source lines
1027-1045): compute `totalParts = ⌈size / chunkSize⌉` and double the chunk
size while the part count is not below `maxParts`, failing once the
doubled chunk size exceeds `maxCS`.  (The parameters are the constants
`maxTotalParts` and `maxChunkSize` in the source; Go would panic on a zero
chunk size, modelled as failure, and `NewFs` only admits positive
configured sizes.) -/
def calcChunkSize (size maxParts maxCS chunkSize : Nat) : Option (Nat × Nat) :=
  if chunkSize = 0 then none
  else if ceilDiv size chunkSize < maxParts then some (chunkSize, ceilDiv size chunkSize)
  else if 2 * chunkSize > maxCS then none
  else calcChunkSize size maxParts maxCS (2 * chunkSize)
termination_by maxCS + 1 - chunkSize
decreasing_by simp_wf; omega

/-- `blockIDIntToBase64` (source lines 1052-1058): the 8-byte little-endian
block id rendered in base64. -/
def blockIDIntToBase64 (blockID : Nat) : List Char :=
  b64EncodeList (putUint64LE blockID)

/-- The block ids `nextID` generates for parts `1..totalParts`, in part
order (these are the ids passed to `StageBlock`). -/
def stagedIDs (totalParts : Nat) : List (List Char) :=
  (List.range totalParts).map (fun i => blockIDIntToBase64 (i + 1))

/-- Result of a successful `uploadMultipart`: the chunk size and part count
used, the block ids staged via `StageBlock` in part order, and the block
list handed to `CommitBlockList`. -/
structure UploadCommit where
  chunkSize : Nat
  totalParts : Nat
  staged : List (List Char)
  committed : List (List Char)
deriving DecidableEq

/-- One iteration of the part loop in `uploadMultipart` (source lines
1089-1142) as it affects the block ids: `nextID` increments `rawID` and
appends the id to `blocks`, then the id is passed to `StageBlock`.  The
state is (`rawID`, `blocks`, ids staged so far). -/
def stageStep (st : Nat × List (List Char) × List (List Char)) (_part : Nat) :
    Nat × List (List Char) × List (List Char) :=
  let rawID := st.1 + 1
  let blockID := blockIDIntToBase64 rawID
  (rawID, st.2.1 ++ [blockID], st.2.2 ++ [blockID])

/-- `uploadMultipart` (source lines 1026-1163) on the success path of every
remote call: compute the chunk size, then run the part loop — `blocks` is
a slice created with `make([]string, totalParts)`, i.e. already holding
`totalParts` empty strings before the first `append` — and finally commit
`blocks` via `CommitBlockList`. -/
def uploadMultipart (size cfgChunkSize : Nat) : Except FsErr UploadCommit :=
  match calcChunkSize size maxTotalParts maxChunkSize cfgChunkSize with
  | none => .error .tooBigForChunks
  | some (chunkSize, totalParts) =>
    let final := (List.range totalParts).foldl stageStep
      (0, List.replicate totalParts [], [])
    .ok ⟨chunkSize, totalParts, final.2.2, final.2.1⟩

end azureblob

namespace webdav

/-! ### webdav `_mkdir`/`mkdir`/`Mkdir` (source lines 1946-1995) and
`dirNotEmpty`/`purgeCheck`/`Rmdir` (source lines 1997-2041). -/

/-- Outcome of one MKCOL / DELETE call through the rest client (after the
pacer): success, an HTTP API error with a status code, or another error. -/
inductive CallOutcome
  | ok
  | httpError (status : Nat)
  | otherError
deriving DecidableEq

/-- `(*Fs)._mkdir` (source lines 1947-1973): an empty path is the
pre-existing root; MKCOL statuses 405 (MethodNotAllowed), 406
(NotAcceptable) and 423 (Locked) mean the collection already exists and
are treated as success. -/
def mkdirLow (dirPath : List Char) (call : CallOutcome) : Option FsErr :=
  if dirPath = [] then none
  else
    match call with
    | .ok => none
    | .httpError s =>
        if s = 405 ∨ s = 406 ∨ s = 423 then none else some (FsErr.apiError s)
    | .otherError => some FsErr.other

/-- `(*Fs).mkdir` (source lines 1976-1989): on HTTP 409 (Conflict) create
the parent first (`parentResult` abstracts that recursive call) and retry
the MKCOL once. -/
def mkdir (dirPath : List Char) (call : CallOutcome) (parentResult : Option FsErr)
    (retryCall : CallOutcome) : Option FsErr :=
  match mkdirLow dirPath call with
  | some (FsErr.apiError s) =>
      if s = 409 then
        match parentResult with
        | none => mkdirLow dirPath retryCall
        | some pe => some pe
      else some (FsErr.apiError s)
  | r => r

/-- `(*Fs).Mkdir` (source lines 1992-1995) delegates to `mkdir` on the
native directory path. -/
def Mkdir (dirPath : List Char) (call : CallOutcome) (parentResult : Option FsErr)
    (retryCall : CallOutcome) : Option FsErr :=
  mkdir dirPath call parentResult retryCall

/-- What a webdav `Rmdir` call did. -/
structure RmdirOutcome where
  err : Option FsErr
  deleted : Bool
deriving DecidableEq

/-- `(*Fs).purgeCheck` (source lines 2008-2034): when `check` is set,
`dirNotEmpty` lists the directory itself (`notEmptyResult`; `.error
.dirNotFound` models a missing directory) and the DELETE is only issued
when the directory is empty. -/
def purgeCheck (check : Bool) (notEmptyResult : Except FsErr Bool)
    (delCall : CallOutcome) : RmdirOutcome :=
  let del : RmdirOutcome :=
    match delCall with
    | .ok => ⟨none, true⟩
    | .httpError s => ⟨some (FsErr.apiError s), false⟩
    | .otherError => ⟨some FsErr.other, false⟩
  if check then
    match notEmptyResult with
    | .error e => ⟨some e, false⟩
    | .ok notEmpty =>
        if notEmpty then ⟨some FsErr.directoryNotEmpty, false⟩ else del
  else del

/-- `(*Fs).Rmdir` (source lines 2039-2041): `purgeCheck` with the emptiness
check enabled. -/
def Rmdir (notEmptyResult : Except FsErr Bool) (delCall : CallOutcome) : RmdirOutcome :=
  purgeCheck true notEmptyResult delCall

end webdav

namespace rcmd

/-! ### `resolveExitCode` (source lines 487-520 of `src/unnamed/part_013`).

The numeric exit codes live in `lib/exitcode`, which is not among the
provided sources; the constants below are therefore modelled from the
specification's mapping (§6). -/

/-- Modelled from the spec: the package `lib/exitcode` is not under `src/`;
§6 gives the mapping "0 success; 1 uncategorized; 2 usage; 3 dir not
found; 4 file not found; 5 temporary failure (retry exceeded); 6 less
serious non-retry; 7 fatal; 8 transfer limit exceeded; 9 no files
transferred (when `--error-on-no-transfer`)".  `DurationExceeded` is
referenced by the source but absent from the spec's list; it is given the
next code in the sequence. -/
def exitcodeSuccess : Nat := 0

def exitcodeUncategorizedError : Nat := 1

def exitcodeUsageError : Nat := 2

def exitcodeDirNotFound : Nat := 3

def exitcodeFileNotFound : Nat := 4

def exitcodeRetryError : Nat := 5

def exitcodeNoRetryError : Nat := 6

def exitcodeFatalError : Nat := 7

def exitcodeTransferExceeded : Nat := 8

def exitcodeNoFilesTransferred : Nat := 9

def exitcodeDurationExceeded : Nat := 10

/-- A non-nil Go error as seen by `resolveExitCode`: which of the
classification predicates in the switch hold of it.  (`errors.Is` with a
sentinel and the `fserrors` classifiers; all of them are false for a plain
error, and every classifier is false for `nil`.) -/
structure GoError where
  isDirNotFound : Bool
  isObjectNotFound : Bool
  isMaxTransferLimit : Bool
  isMaxDuration : Bool
  shouldRetry : Bool
  isNoRetry : Bool
  isNoLowLevelRetry : Bool
  isFatal : Bool
  isCommandNotFound : Bool
  isNotEnoughArguments : Bool
  isTooManyArguments : Bool
deriving DecidableEq

/-- The `switch` in `resolveExitCode` (source lines 500-519), evaluated for
any error - including `nil`, for which no case matches, so the `default`
case prints the uncategorized code. -/
def exitSwitchCode (err : Option GoError) : Nat :=
  match err with
  | none => exitcodeUncategorizedError
  | some e =>
    if e.isDirNotFound then exitcodeDirNotFound
    else if e.isObjectNotFound then exitcodeFileNotFound
    else if e.isMaxTransferLimit then exitcodeTransferExceeded
    else if e.isMaxDuration then exitcodeDurationExceeded
    else if e.shouldRetry then exitcodeRetryError
    else if e.isNoRetry || e.isNoLowLevelRetry then exitcodeNoRetryError
    else if e.isFatal then exitcodeFatalError
    else if e.isCommandNotFound || e.isNotEnoughArguments || e.isTooManyArguments then
      exitcodeUsageError
    else exitcodeUncategorizedError

/-- `resolveExitCode` (source lines 487-520): the list of exit codes the
function prints, in order.  The `err == nil` branch prints the
no-files-transferred code when `--error-on-no-transfer` is set and nothing
was transferred, and — having no early return — always falls through to
the switch.  The function never calls `os.Exit`. -/
def resolveExitCode (err : Option GoError) (errorOnNoTransfer : Bool)
    (transfers : Nat) : List Nat :=
  (if err = none then
     (if errorOnNoTransfer then
        (if transfers = 0 then [exitcodeNoFilesTransferred] else [])
      else [])
   else []) ++ [exitSwitchCode err]

end rcmd

namespace rvfs

/-! ### VFS open flags (`vfs/make_open_tests.go` and the spec's §4.6 open
contract).

The flag values are the Linux `os` package constants the generator uses. -/

def O_RDONLY : Nat := 0

def O_WRONLY : Nat := 1

def O_RDWR : Nat := 2

def O_APPEND : Nat := 1024

def O_CREATE : Nat := 64

def O_EXCL : Nat := 128

def O_SYNC : Nat := 1052672

def O_TRUNC : Nat := 512

/-- `accessModeMask` (source line 51 of `make_open_tests.go`). -/
def accessModeMask : Nat := O_RDONLY ||| O_WRONLY ||| O_RDWR

/-- The error classes `whichError` distinguishes. -/
inductive VfsErr
  | EINVAL
  | ENOENT
  | EBADF
  | EEXIST
  | eof
deriving DecidableEq

/-- One row of the generated `openTests` table. -/
structure OpenTestRow where
  openNonExistentErr : Option VfsErr
  readNonExistentErr : Option VfsErr
  writeNonExistentErr : Option VfsErr
  openExistingErr : Option VfsErr
  readExistingErr : Option VfsErr
  writeExistingErr : Option VfsErr
  contents : List Char
deriving DecidableEq

/-- The expectation override in `test` (`make_open_tests.go` lines 136-147):
for `O_RDONLY` combined with `O_TRUNC` the generated test row demands
`EINVAL` from the open on both a non-existent and an existing file, no
read/write outcomes, and the file contents still `"hello"` (the value
written before the open). -/
def openTestFix (flags : Nat) (row : OpenTestRow) : OpenTestRow :=
  if flags &&& accessModeMask = O_RDONLY ∧ flags &&& O_TRUNC ≠ 0 then
    { openNonExistentErr := some .EINVAL
      readNonExistentErr := none
      writeNonExistentErr := none
      openExistingErr := some .EINVAL
      readExistingErr := none
      writeExistingErr := none
      contents := "hello".toList }
  else row

/-- Modelled from the spec: the VFS `OpenFile` implementation
(`vfs/file.go` and friends) is not among the provided sources — only the
test generator is.  Per the spec (§3 VFS Node, §4.6): behavior matches
Linux except that `O_TRUNC` with `O_RDONLY` fails with `EINVAL` on both
non-existent and existing files.  The model takes the file state (`none`
when the file does not exist, otherwise its contents) and returns the open
result together with the file state afterwards. -/
def OpenFile (file : Option (List Char)) (flags : Nat) :
    Except VfsErr Unit × Option (List Char) :=
  if flags &&& accessModeMask = O_RDONLY ∧ flags &&& O_TRUNC ≠ 0 then
    (.error .EINVAL, file)
  else
    match file with
    | none =>
      if flags &&& O_CREATE ≠ 0 then (.ok (), some []) else (.error .ENOENT, none)
    | some contents =>
      if flags &&& O_CREATE ≠ 0 ∧ flags &&& O_EXCL ≠ 0 then (.error .EEXIST, some contents)
      else if flags &&& O_TRUNC ≠ 0 then (.ok (), some [])
      else (.ok (), some contents)

end rvfs

/-! ## Helper lemmas -/

theorem natDigitChar_isDigit (n : Nat) (h : n < 10) : (natDigitChar n).isDigit = true := by
  interval_cases n <;> decide

theorem natDigitChar_toNat (n : Nat) (h : n < 10) : (natDigitChar n).toNat - 48 = n := by
  interval_cases n <;> decide

theorem padNat_length (w v : Nat) : (padNat w v).length = w := by
  induction w generalizing v with
  | zero => rfl
  | succ w ih => simp [padNat, ih]

theorem accStep (acc v w : Nat) :
    (acc * 10 + v / 10 ^ w) * 10 ^ w + v % 10 ^ w = acc * 10 ^ (w + 1) + v := by
  have h := Nat.div_add_mod v (10 ^ w)
  calc (acc * 10 + v / 10 ^ w) * 10 ^ w + v % 10 ^ w
      = acc * (10 * 10 ^ w) + (10 ^ w * (v / 10 ^ w) + v % 10 ^ w) := by ring
    _ = acc * 10 ^ (w + 1) + v := by rw [h, ← pow_succ']

theorem parseDigitsFix_pad (w : Nat) : ∀ acc v rest, v < 10 ^ w →
    parseDigitsFix w acc (padNat w v ++ rest) = some (acc * 10 ^ w + v, rest) := by
  induction w with
  | zero => intro acc v rest hv; simp [padNat, parseDigitsFix]; omega
  | succ w ih =>
    intro acc v rest hv
    have hd : v / 10 ^ w < 10 := Nat.div_lt_of_lt_mul (by rw [← pow_succ]; exact hv)
    simp only [padNat, List.cons_append, parseDigitsFix, natDigitChar_isDigit _ hd,
      if_true, natDigitChar_toNat _ hd, List.append_eq]
    rw [ih _ _ _ (Nat.mod_lt v (by positivity)), accStep]

theorem digitsVal_pad (w : Nat) : ∀ acc v, v < 10 ^ w →
    digitsVal acc (padNat w v) = acc * 10 ^ w + v := by
  induction w with
  | zero =>
    intro acc v hv
    have hv0 : v = 0 := by omega
    subst hv0
    simp [padNat, digitsVal]
  | succ w ih =>
    intro acc v hv
    have hd : v / 10 ^ w < 10 := Nat.div_lt_of_lt_mul (by rw [← pow_succ]; exact hv)
    simp only [padNat, digitsVal, List.foldl_cons, natDigitChar_toNat _ hd]
    have hrec := ih (acc * 10 + v / 10 ^ w) (v % 10 ^ w) (Nat.mod_lt v (by positivity))
    simp only [digitsVal] at hrec
    rw [hrec, accStep]

theorem expectCh_cons (c : Char) (cs : List Char) : expectCh c (c :: cs) = some cs := by
  simp [expectCh]

theorem padNat_takeWhile (w v : Nat) (rest : List Char) (hv : v < 10 ^ w)
    (hrest : ∀ c, rest.head? = some c → ¬ c.isDigit) :
    (padNat w v ++ rest).takeWhile Char.isDigit = padNat w v ∧
    (padNat w v ++ rest).dropWhile Char.isDigit = rest := by
  induction w generalizing v with
  | zero =>
    simp only [padNat, List.nil_append]
    cases rest with
    | nil => simp
    | cons c cs =>
      have := hrest c (by simp)
      simp [List.takeWhile, List.dropWhile, this]
  | succ w ih =>
    have hd : v / 10 ^ w < 10 := Nat.div_lt_of_lt_mul (by rw [← pow_succ]; exact hv)
    have hdig := natDigitChar_isDigit _ hd
    have hrec := ih (v % 10 ^ w) (Nat.mod_lt v (by positivity))
    simp only [padNat, List.cons_append, List.takeWhile_cons, List.dropWhile_cons, hdig,
      if_true, hrec.1, hrec.2]
    simp

theorem daysInMonth_le (y m : Nat) : daysInMonth y m ≤ 31 := by
  unfold daysInMonth
  split
  · split <;> norm_num
  · split <;> norm_num

theorem parseFrac_pad (ns : Nat) (tz : List Char) (hns : ns < 10 ^ 9)
    (htz : ∀ c, tz.head? = some c → ¬ c.isDigit) :
    parseFrac ('.' :: (padNat 9 ns ++ tz)) = some (ns, tz) := by
  have hsplit := padNat_takeWhile 9 ns tz hns htz
  have hd : ns / 10 ^ 8 < 10 := Nat.div_lt_of_lt_mul (by rw [← pow_succ]; exact hns)
  have hdig := natDigitChar_isDigit _ hd
  have hpad9 : padNat 9 ns ++ tz = natDigitChar (ns / 10 ^ 8) :: (padNat 8 (ns % 10 ^ 8) ++ tz) := by
    simp [padNat]
  have htake : List.take 9 (padNat 9 ns) = padNat 9 ns :=
    List.take_of_length_le (by rw [padNat_length])
  simp only [parseFrac, List.cons_append, if_true, hpad9]
  rw [← hpad9, hsplit.1, hsplit.2, hdig]
  simp only [if_true, htake, padNat_length, digitsVal_pad 9 0 ns hns]
  norm_num

theorem formatTZ_head (off : Int) : ∀ c, (formatTZ off).head? = some c → ¬ c.isDigit := by
  unfold formatTZ
  by_cases h0 : off = 0
  · simp [h0]
  · by_cases hpos : off > 0 <;> simp [h0, hpos]

theorem parseTZ_format (off : Int) (hlo : -(24 * 60) < off) (hhi : off < 24 * 60) :
    parseTZ (formatTZ off) = some off := by
  by_cases h0 : off = 0
  · simp [formatTZ, parseTZ, h0]
  · have habs : off.natAbs < 24 * 60 := by omega
    have hh : off.natAbs / 60 ≤ 23 := by omega
    have hm : off.natAbs % 60 ≤ 59 := by omega
    have hh100 : off.natAbs / 60 < 10 ^ 2 := by omega
    have hm100 : off.natAbs % 60 < 10 ^ 2 := by omega
    by_cases hpos : off > 0
    · simp only [formatTZ, if_neg h0, if_pos hpos, parseTZ]
      rw [if_neg (by decide), if_pos (by decide)]
      rw [parseDigitsFix_pad 2 0 _ _ hh100]
      simp only [expectCh_cons]
      have hlast := parseDigitsFix_pad 2 0 (off.natAbs % 60) [] hm100
      rw [List.append_nil] at hlast
      rw [hlast]
      simp only [Nat.zero_mul, Nat.zero_add]
      rw [if_pos ⟨hh, hm⟩]
      simp only [Option.some.injEq]
      simp only [show ('+' = '+') = True by simp, if_true]
      omega
    · simp only [formatTZ, if_neg h0, if_neg hpos, parseTZ]
      rw [if_neg (by decide), if_pos (by decide)]
      rw [parseDigitsFix_pad 2 0 _ _ hh100]
      simp only [expectCh_cons]
      have hlast := parseDigitsFix_pad 2 0 (off.natAbs % 60) [] hm100
      rw [List.append_nil] at hlast
      rw [hlast]
      simp only [Nat.zero_mul, Nat.zero_add]
      rw [if_pos ⟨hh, hm⟩]
      simp only [Option.some.injEq]
      simp only [show ('-' = '+') = False by simp, if_false]
      omega

/-- The round trip at the heart of the `mtime` metadata convention:
parsing (with the RFC3339 input layout) what `Format` produced with the
nanosecond output layout recovers the time exactly. -/
theorem parseRFC3339_format (t : GoDateTime) (h : ValidDateTime t) :
    parseRFC3339 (formatTimeOut t) = some t := by
  obtain ⟨y, mo, d, hh, mi, se, ns, off⟩ := t
  obtain ⟨hy, hmo1, hmo2, hd1, hd2, hhh, hmi, hse, hns, hoff1, hoff2⟩ := h
  dsimp only at hy hmo1 hmo2 hd1 hd2 hhh hmi hse hns hoff1 hoff2
  have hdm := daysInMonth_le y mo
  have htz := parseTZ_format off (by omega) (by omega)
  have htzh := formatTZ_head off
  simp only [formatTimeOut, List.cons_append, List.append_assoc] at *
  unfold parseRFC3339
  rw [parseDigitsFix_pad 4 0 y _ (by omega)]
  simp only [Option.bind_eq_bind, Option.some_bind, expectCh_cons]
  rw [parseDigitsFix_pad 2 0 mo _ (by omega)]
  simp only [Option.some_bind, expectCh_cons]
  rw [parseDigitsFix_pad 2 0 d _ (by omega)]
  simp only [Option.some_bind, expectCh_cons]
  rw [parseDigitsFix_pad 2 0 hh _ (by omega)]
  simp only [Option.some_bind, expectCh_cons]
  rw [parseDigitsFix_pad 2 0 mi _ (by omega)]
  simp only [Option.some_bind, expectCh_cons]
  rw [parseDigitsFix_pad 2 0 se _ (by omega)]
  simp only [Option.some_bind, expectCh_cons]
  rw [parseFrac_pad ns (formatTZ off) (by omega) htzh]
  simp only [Option.some_bind]
  rw [htz]
  simp only [Option.some_bind, Nat.zero_mul, Nat.zero_add]
  rw [if_pos ⟨hmo1, hmo2, hd1, hd2, hhh, hmi, hse⟩]
  rfl

theorem b64Val_b64Char (n : Nat) (h : n < 64) : b64Val (b64Char n) = some n := by
  interval_cases n <;> rfl

theorem b64Char_ne_pad (n : Nat) (h : n < 64) : b64Char n ≠ '=' := by
  interval_cases n <;> decide

theorem b64EncodeList_ne_nil (bs : List Nat) (h : bs ≠ []) : b64EncodeList bs ≠ [] := by
  match bs with
  | [] => exact absurd rfl h
  | [a] => simp [b64EncodeList]
  | [a, b] => simp [b64EncodeList]
  | a :: b :: c :: rest => simp [b64EncodeList]

/-- Decoding what `base64.StdEncoding` encoded returns the original bytes. -/
theorem b64_roundtrip : ∀ bs : List Nat, (∀ x ∈ bs, x < 256) →
    b64DecodeList (b64EncodeList bs) = some bs := by
  intro bs
  induction bs using b64EncodeList.induct with
  | case1 => intro _; rfl
  | case2 a =>
    intro hb
    have ha : a < 256 := hb a (by simp)
    have h1 := b64Val_b64Char (a / 4) (by omega)
    have h2 := b64Val_b64Char (a % 4 * 16) (by omega)
    simp [b64EncodeList, b64DecodeList, h1, h2]
    omega
  | case3 a b =>
    intro hb
    have ha : a < 256 := hb a (by simp)
    have hbb : b < 256 := hb b (by simp)
    have h1 := b64Val_b64Char (a / 4) (by omega)
    have h2 := b64Val_b64Char (a % 4 * 16 + b / 16) (by omega)
    have h3 := b64Val_b64Char (b % 16 * 4) (by omega)
    have hne := b64Char_ne_pad (b % 16 * 4) (by omega)
    simp [b64EncodeList, b64DecodeList, h1, h2, h3, hne]
    omega
  | case4 a b c rest ih =>
    intro hb
    have ha : a < 256 := hb a (by simp)
    have hbb : b < 256 := hb b (by simp)
    have hc : c < 256 := hb c (by simp)
    have ih' := ih (fun x hx => hb x (by simp [hx]))
    have h1 := b64Val_b64Char (a / 4) (by omega)
    have h2 := b64Val_b64Char (a % 4 * 16 + b / 16) (by omega)
    have h3 := b64Val_b64Char (b % 16 * 4 + c / 64) (by omega)
    have h4 := b64Val_b64Char (c % 64) (by omega)
    have hne3 := b64Char_ne_pad (b % 16 * 4 + c / 64) (by omega)
    have hne4 := b64Char_ne_pad (c % 64) (by omega)
    simp [b64EncodeList, b64DecodeList, h1, h2, h3, h4, hne3, hne4, ih']
    omega

theorem hexDigitChar_mem (n : Nat) : hexDigitChar n ∈ hexAlphabet := by
  unfold hexDigitChar
  rcases Nat.lt_or_ge n 16 with h | h
  · interval_cases n <;> decide
  · rw [List.getD_eq_default]
    · decide
    · calc hexAlphabet.length = 16 := by decide
        _ ≤ n := h

/-- Every character `hex.EncodeToString` produces is a lowercase hex
digit. -/
theorem hexEncodeList_lower (bs : List Nat) : ∀ c ∈ hexEncodeList bs, c ∈ hexAlphabet := by
  intro c hc
  unfold hexEncodeList at hc
  rw [List.mem_flatMap] at hc
  obtain ⟨b, _, hcm⟩ := hc
  simp only [List.mem_cons, List.not_mem_nil, or_false] at hcm
  rcases hcm with h | h <;> subst h <;> exact hexDigitChar_mem _

/-- Characterization of the successful chunk-size search: the result is
`cfg * 2 ^ k` for the least `k` whose part count is below the limit, the
part count is `⌈size / chunkSize⌉`, and the chunk size never exceeded the
maximum. -/
theorem calcChunkSize_some (size maxParts maxCS : Nat) (c : Nat) :
    ∀ c' tp, 0 < c → c ≤ maxCS →
    azureblob.calcChunkSize size maxParts maxCS c = some (c', tp) →
    ∃ k, c' = c * 2 ^ k ∧ tp = azureblob.ceilDiv size c' ∧ tp < maxParts ∧ c' ≤ maxCS ∧
      (∀ j, j < k → maxParts ≤ azureblob.ceilDiv size (c * 2 ^ j)) := by
  induction c using azureblob.calcChunkSize.induct size maxParts maxCS with
  | case1 => intro c' tp hc hle h; omega
  | case2 c hz htp =>
    intro c' tp hc hle h
    rw [azureblob.calcChunkSize] at h
    simp only [if_neg hz, if_pos htp, Option.some.injEq, Prod.mk.injEq] at h
    obtain ⟨h1, h2⟩ := h
    refine ⟨0, by omega, by rw [← h1, ← h2], by omega, by omega, by omega⟩
  | case3 c hz htp hbig =>
    intro c' tp hc hle h
    rw [azureblob.calcChunkSize] at h
    simp only [if_neg hz, if_neg htp, if_pos hbig] at h
    exact Option.noConfusion h
  | case4 c hz htp hbig ih =>
    intro c' tp hc hle h
    rw [azureblob.calcChunkSize] at h
    simp only [if_neg hz, if_neg htp, if_neg hbig] at h
    obtain ⟨k, hk1, hk2, hk3, hk4, hk5⟩ := ih c' tp (by omega) (by omega) h
    refine ⟨k + 1, by rw [hk1]; ring, hk2, hk3, hk4, ?_⟩
    intro j hj
    cases j with
    | zero => simpa using htp
    | succ j' =>
      have hj' := hk5 j' (by omega)
      have he : 2 * c * 2 ^ j' = c * 2 ^ (j' + 1) := by ring
      rw [he] at hj'
      exact hj'

/-- Characterization of the failing chunk-size search: every power-of-two
multiple of the configured chunk size that stays within the maximum still
produces too many parts. -/
theorem calcChunkSize_none (size maxParts maxCS : Nat) (c : Nat) :
    0 < c →
    azureblob.calcChunkSize size maxParts maxCS c = none →
    ∀ k, c * 2 ^ k ≤ maxCS → maxParts ≤ azureblob.ceilDiv size (c * 2 ^ k) := by
  induction c using azureblob.calcChunkSize.induct size maxParts maxCS with
  | case1 => intro hc h k hk; omega
  | case2 c hz htp =>
    intro hc h
    rw [azureblob.calcChunkSize] at h
    simp only [if_neg hz, if_pos htp] at h
    exact Option.noConfusion h
  | case3 c hz htp hbig =>
    intro hc h k hk
    cases k with
    | zero => simpa using htp
    | succ k' =>
      exfalso
      have h2 : 2 * c ≤ c * 2 ^ (k' + 1) := by
        have h1 : (2 : Nat) ≤ 2 ^ (k' + 1) := by
          calc (2 : Nat) = 2 ^ 1 := by norm_num
          _ ≤ 2 ^ (k' + 1) := Nat.pow_le_pow_right (by norm_num) (by omega)
        calc 2 * c = c * 2 := by ring
        _ ≤ c * 2 ^ (k' + 1) := Nat.mul_le_mul_left c h1
      omega
  | case4 c hz htp hbig ih =>
    intro hc h k hk
    rw [azureblob.calcChunkSize] at h
    simp only [if_neg hz, if_neg htp, if_neg hbig] at h
    cases k with
    | zero => simpa using htp
    | succ k' =>
      have hr := ih (by omega) h k'
        (by rw [show 2 * c * 2 ^ k' = c * 2 ^ (k' + 1) by ring]; exact hk)
      rwa [show 2 * c * 2 ^ k' = c * 2 ^ (k' + 1) by ring] at hr

/-- Closed form of the part loop's effect on the block-id state: after
`n` iterations starting from raw id `r`, the ids `r+1 … r+n` have been
appended to `blocks` and staged, in order. -/
theorem stageFold (n : Nat) : ∀ (r : Nat) (bacc sacc : List (List Char)),
    (List.range n).foldl azureblob.stageStep (r, bacc, sacc) =
      (r + n,
       bacc ++ (List.range n).map (fun i => azureblob.blockIDIntToBase64 (r + i + 1)),
       sacc ++ (List.range n).map (fun i => azureblob.blockIDIntToBase64 (r + i + 1))) := by
  induction n with
  | zero => intro r bacc sacc; simp
  | succ n ih =>
    intro r bacc sacc
    rw [List.range_succ, List.foldl_append, ih]
    simp only [List.foldl_cons, List.foldl_nil, azureblob.stageStep, List.range_succ,
      List.map_append, List.map_cons, List.map_nil, List.append_assoc]
    refine congrArg _ ?_
    constructor

/-- On the success path `uploadMultipart` stages exactly the ids
`1 … totalParts` in order, but commits them appended to the
`totalParts` empty strings that `make([]string, totalParts)` put into
`blocks`. -/
theorem uploadMultipart_ok (size cfg cs tp : Nat)
    (h : azureblob.calcChunkSize size azureblob.maxTotalParts azureblob.maxChunkSize cfg =
      some (cs, tp)) :
    azureblob.uploadMultipart size cfg =
      .ok ⟨cs, tp, azureblob.stagedIDs tp, List.replicate tp [] ++ azureblob.stagedIDs tp⟩ := by
  unfold azureblob.uploadMultipart
  rw [h]
  dsimp only
  rw [stageFold]
  simp [azureblob.stagedIDs]

theorem metaLookup_metaSet (m : azureblob.MetaMap) (k : String) (v : List Char) :
    azureblob.metaLookup (azureblob.metaSet m k v) k = some v := by
  unfold azureblob.metaLookup azureblob.metaSet
  rw [List.find?_cons_of_pos _ (by simp)]
  rfl

theorem metaSet_len_pos (m : azureblob.MetaMap) (k : String) (v : List Char) :
    0 < azureblob.metaLen (azureblob.metaSet m k v) := by
  unfold azureblob.metaLen azureblob.metaSet
  simp

theorem stagedIDs_length (tp : Nat) : (azureblob.stagedIDs tp).length = tp := by
  simp [azureblob.stagedIDs]

/-! ## Claims -/

/-- Claim C1: for every multipart upload of size `S` with configured chunk
size `C` (positive and within the validated maximum), the effective chunk
size is the smallest `C * 2 ^ k` whose part count `⌈S / C'⌉` is strictly
below 50000, and the upload stages exactly that many parts; the transfer
fails with an error exactly when no such doubling stays within the 100 MiB
maximum chunk size.  In particular a 600 MiB file with a 4 MiB chunk size
uses 150 parts, and with a part limit of 100 the chunk size doubles to
8 MiB giving 75 parts. -/
theorem azureblob_uploadMultipart_chunk_doubling (size cfg : Nat)
    (h1 : 0 < cfg) (h2 : cfg ≤ azureblob.maxChunkSize) :
    (∀ u, azureblob.uploadMultipart size cfg = .ok u →
        (∃ k, u.chunkSize = cfg * 2 ^ k ∧
          azureblob.ceilDiv size u.chunkSize < azureblob.maxTotalParts ∧
          (∀ j, j < k →
            azureblob.maxTotalParts ≤ azureblob.ceilDiv size (cfg * 2 ^ j)) ∧
          u.chunkSize ≤ azureblob.maxChunkSize) ∧
        u.totalParts = azureblob.ceilDiv size u.chunkSize ∧
        u.staged.length = u.totalParts)
    ∧ ((∃ m, azureblob.uploadMultipart size cfg = .error m) ↔
        ∀ k, cfg * 2 ^ k ≤ azureblob.maxChunkSize →
          azureblob.maxTotalParts ≤ azureblob.ceilDiv size (cfg * 2 ^ k))
    ∧ azureblob.calcChunkSize 629145600 azureblob.maxTotalParts azureblob.maxChunkSize 4194304
        = some (4194304, 150)
    ∧ azureblob.calcChunkSize 629145600 100 azureblob.maxChunkSize 4194304
        = some (8388608, 75) := by
  refine ⟨?_, ⟨?_, ?_⟩, ?_, ?_⟩
  · intro u hu
    rcases hcc : azureblob.calcChunkSize size azureblob.maxTotalParts azureblob.maxChunkSize cfg
      with - | ⟨cs, tp⟩
    · unfold azureblob.uploadMultipart at hu
      rw [hcc] at hu
      exact Except.noConfusion hu
    · rw [uploadMultipart_ok size cfg cs tp hcc] at hu
      obtain rfl : u = ⟨cs, tp, azureblob.stagedIDs tp,
          List.replicate tp [] ++ azureblob.stagedIDs tp⟩ := by
        cases hu
        rfl
      obtain ⟨k, hk1, hk2, hk3, hk4, hk5⟩ := calcChunkSize_some size _ _ cfg cs tp h1 h2 hcc
      exact ⟨⟨k, hk1, hk2 ▸ hk3, hk5, hk4⟩, hk2, stagedIDs_length tp⟩
  · rintro ⟨m, hm⟩ k hk
    rcases hcc : azureblob.calcChunkSize size azureblob.maxTotalParts azureblob.maxChunkSize cfg
      with - | ⟨cs, tp⟩
    · exact calcChunkSize_none size _ _ cfg h1 hcc k hk
    · rw [uploadMultipart_ok size cfg cs tp hcc] at hm
      exact Except.noConfusion hm
  · intro hall
    rcases hcc : azureblob.calcChunkSize size azureblob.maxTotalParts azureblob.maxChunkSize cfg
      with - | ⟨cs, tp⟩
    · refine ⟨.tooBigForChunks, ?_⟩
      unfold azureblob.uploadMultipart
      rw [hcc]
    · obtain ⟨k, hk1, hk2, hk3, hk4, hk5⟩ := calcChunkSize_some size _ _ cfg cs tp h1 h2 hcc
      have := hall k (hk1 ▸ hk4)
      rw [← hk1] at this
      omega
  · simp [azureblob.calcChunkSize, azureblob.ceilDiv, azureblob.maxTotalParts,
      azureblob.maxChunkSize]
  · simp [azureblob.calcChunkSize, azureblob.ceilDiv, azureblob.maxChunkSize]

/-- Witness for claim C1, at the spec's own example: a 600 MiB upload with
a 4 MiB configured chunk size. -/
theorem azureblob_uploadMultipart_chunk_doubling_witness :
    0 < 4194304 ∧ (4194304 : Nat) ≤ azureblob.maxChunkSize ∧
    azureblob.calcChunkSize 629145600 azureblob.maxTotalParts azureblob.maxChunkSize 4194304
      = some (4194304, 150) ∧
    azureblob.calcChunkSize 629145600 100 azureblob.maxChunkSize 4194304
      = some (8388608, 75) :=
  ⟨by decide, by decide,
   (azureblob_uploadMultipart_chunk_doubling 629145600 4194304 (by decide) (by decide)).2.2.1,
   (azureblob_uploadMultipart_chunk_doubling 629145600 4194304 (by decide) (by decide)).2.2.2⟩

/-- Claim C8 (code bug): the block list handed to `CommitBlockList` is NOT
exactly the staged block ids.  `blocks` is created with
`make([]string, totalParts)` — a slice of `totalParts` empty strings — and
`nextID` appends to it, so the committed list is `totalParts` empty
strings followed by the staged ids: at a 600 MiB upload with a 100 MiB
chunk size (6 parts), 12 entries are committed, of which the first 6 are
empty strings.  This contradicts the code's own comment that all block ids
must have the same length (and the Azure API contract the comment cites). -/
theorem azureblob_commitBlockList_extra_empty_ids :
    azureblob.uploadMultipart (600 * 1024 * 1024) (100 * 1024 * 1024) =
      .ok ⟨100 * 1024 * 1024, 6, azureblob.stagedIDs 6,
           List.replicate 6 [] ++ azureblob.stagedIDs 6⟩ ∧
    (List.replicate 6 ([] : List Char) ++ azureblob.stagedIDs 6).length = 12 ∧
    (azureblob.stagedIDs 6).length = 6 ∧
    List.replicate 6 ([] : List Char) ++ azureblob.stagedIDs 6 ≠ azureblob.stagedIDs 6 := by
  refine ⟨uploadMultipart_ok _ _ _ _ (by
      simp [azureblob.calcChunkSize, azureblob.ceilDiv, azureblob.maxTotalParts,
        azureblob.maxChunkSize]), ?_, stagedIDs_length 6, ?_⟩
  · simp [stagedIDs_length]
  · intro h
    have hlen := congrArg List.length h
    simp [stagedIDs_length] at hlen

/-- Claim C9 (code bug): `resolveExitCode` never produces the success exit
code 0.  On `err == nil` the success branch is commented out and the
function falls through to the classification switch, whose default case
emits the uncategorized-error code 1; with `--error-on-no-transfer` set and
zero transfers it emits code 9 and then code 1 as well.  (For non-nil
errors the switch does match the claim's mapping, e.g. `ErrorDirNotFound`
gives 3.) -/
theorem resolveExitCode_success_emits_uncategorized :
    rcmd.resolveExitCode none false 0 = [rcmd.exitcodeUncategorizedError] ∧
    rcmd.resolveExitCode none false 7 = [rcmd.exitcodeUncategorizedError] ∧
    rcmd.exitcodeUncategorizedError ≠ rcmd.exitcodeSuccess ∧
    rcmd.resolveExitCode none true 0 =
      [rcmd.exitcodeNoFilesTransferred, rcmd.exitcodeUncategorizedError] ∧
    rcmd.resolveExitCode
      (some ⟨true, false, false, false, false, false, false, false, false, false, false⟩)
      false 0 = [rcmd.exitcodeDirNotFound] ∧
    rcmd.resolveExitCode
      (some ⟨false, true, false, false, false, false, false, false, false, false, false⟩)
      false 0 = [rcmd.exitcodeFileNotFound] := by
  decide

/-- Claim C2: opening any file — existing or not — with access mode
`O_RDONLY` and the `O_TRUNC` flag fails with `EINVAL` and leaves the file
state unchanged; the generated VFS open-test matrix demands exactly that
(`EINVAL` on both opens, contents still `"hello"`). -/
theorem vfs_open_rdonly_trunc_einval (flags : Nat) (file : Option (List Char))
    (row : rvfs.OpenTestRow)
    (hmode : flags &&& rvfs.accessModeMask = rvfs.O_RDONLY)
    (htr : flags &&& rvfs.O_TRUNC ≠ 0) :
    rvfs.OpenFile file flags = (.error .EINVAL, file) ∧
    (rvfs.openTestFix flags row).openNonExistentErr = some .EINVAL ∧
    (rvfs.openTestFix flags row).openExistingErr = some .EINVAL ∧
    (rvfs.openTestFix flags row).contents = "hello".toList := by
  unfold rvfs.OpenFile rvfs.openTestFix
  rw [if_pos ⟨hmode, htr⟩, if_pos ⟨hmode, htr⟩]
  exact ⟨rfl, rfl, rfl, rfl⟩

/-- Witness for claim C2 at `flags = O_RDONLY ||| O_TRUNC` on a file
holding `"hello"`. -/
theorem vfs_open_rdonly_trunc_einval_witness :
    (512 : Nat) &&& rvfs.accessModeMask = rvfs.O_RDONLY ∧
    (512 : Nat) &&& rvfs.O_TRUNC ≠ 0 ∧
    (rvfs.OpenFile (some "hello".toList) 512 = (.error .EINVAL, some "hello".toList) ∧
     (rvfs.openTestFix 512 ⟨none, none, none, none, none, none, []⟩).openNonExistentErr =
       some .EINVAL ∧
     (rvfs.openTestFix 512 ⟨none, none, none, none, none, none, []⟩).openExistingErr =
       some .EINVAL ∧
     (rvfs.openTestFix 512 ⟨none, none, none, none, none, none, []⟩).contents =
       "hello".toList) :=
  ⟨by decide, by decide,
   vfs_open_rdonly_trunc_einval 512 (some "hello".toList)
     ⟨none, none, none, none, none, none, []⟩ (by decide) (by decide)⟩

theorem setMetadata_modTime (o : azureblob.Object) (m : azureblob.MetaMap) (t : GoDateTime)
    (hlook : azureblob.metaLookup m azureblob.modTimeKey = some (formatTimeOut t))
    (hlen : 0 < azureblob.metaLen m)
    (hparse : parseRFC3339 (formatTimeOut t) = some t) :
    (azureblob.Object.setMetadata o m).modTime = t := by
  unfold azureblob.Object.setMetadata
  rw [if_pos hlen, hlook]
  dsimp only
  rw [hparse]

theorem ModTimeOf_reads_mtime (o2 : azureblob.Object) (props : azureblob.BlobProperties)
    (t : GoDateTime) (hmod : o2.modTime = t)
    (hlook : azureblob.metaLookup props.metadata azureblob.modTimeKey = some (formatTimeOut t))
    (hlen : 0 < azureblob.metaLen props.metadata)
    (hparse : parseRFC3339 (formatTimeOut t) = some t) :
    azureblob.Object.ModTimeOf o2 (some props) = t := by
  unfold azureblob.Object.ModTimeOf azureblob.Object.readMetaData
  by_cases hz : o2.modTime ≠ goZeroTime
  · rw [if_pos hz]
    exact hmod
  · rw [if_neg hz]
    dsimp only
    unfold azureblob.Object.decodeMetaDataFromPropertiesResponse
    exact setMetadata_modTime _ _ _ hlook hlen hparse

/-- Claim C3: a successful `SetModTime t` stores the metadata key `mtime`
as the RFC3339 nanosecond-precision rendering of `t`; parsing that value
back (as `setMetadata` does, with `timeFormatIn = time.RFC3339`) yields a
time equal to `t`; and a subsequent `ModTime` — whether it answers from
the cached value or re-reads the stored metadata — returns exactly `t`. -/
theorem azureblob_mtime_roundtrip (o : azureblob.Object) (t : GoDateTime)
    (h : ValidDateTime t) :
    (azureblob.Object.SetModTime o t true).1 = none ∧
    azureblob.metaLookup (azureblob.Object.SetModTime o t true).2.meta azureblob.modTimeKey
      = some (formatTimeOut t) ∧
    parseRFC3339 (formatTimeOut t) = some t ∧
    (azureblob.Object.SetModTime o t true).2.modTime = t ∧
    (∀ props : azureblob.BlobProperties,
       props.metadata = (azureblob.Object.SetModTime o t true).2.meta →
       azureblob.Object.ModTimeOf (azureblob.Object.SetModTime o t true).2 (some props) = t) := by
  have hparse := parseRFC3339_format t h
  have hset : azureblob.Object.SetModTime o t true =
      (none,
       { o with meta := azureblob.metaSet o.meta azureblob.modTimeKey (formatTimeOut t),
                modTime := t }) := by
    unfold azureblob.Object.SetModTime
    simp
  rw [hset]
  refine ⟨rfl, metaLookup_metaSet _ _ _, hparse, rfl, ?_⟩
  intro props hmeta
  dsimp only at hmeta
  refine ModTimeOf_reads_mtime _ _ _ rfl ?_ ?_ hparse
  · rw [hmeta]
    exact metaLookup_metaSet _ _ _
  · rw [hmeta]
    exact metaSet_len_pos _ _ _

/-- Witness for claim C3 at a concrete nanosecond-precision time with a
+05:30 zone offset, on an object with empty metadata. -/
theorem azureblob_mtime_roundtrip_witness :
    ValidDateTime ⟨2021, 3, 14, 1, 59, 26, 535897932, 330⟩ ∧
    parseRFC3339 (formatTimeOut ⟨2021, 3, 14, 1, 59, 26, 535897932, 330⟩) =
      some ⟨2021, 3, 14, 1, 59, 26, 535897932, 330⟩ ∧
    (azureblob.Object.SetModTime ⟨[], goZeroTime, [], 0, []⟩
        ⟨2021, 3, 14, 1, 59, 26, 535897932, 330⟩ true).2.modTime =
      ⟨2021, 3, 14, 1, 59, 26, 535897932, 330⟩ :=
  ⟨by decide,
   (azureblob_mtime_roundtrip ⟨[], goZeroTime, [], 0, []⟩ _ (by decide)).2.2.1,
   (azureblob_mtime_roundtrip ⟨[], goZeroTime, [], 0, []⟩ _ (by decide)).2.2.2.1⟩

namespace azureblob
theorem splitSlash_ne_nil (p : List Char) : splitSlash p ≠ [] := by
  induction p with
  | nil => simp [splitSlash]
  | cons c cs ih =>
    unfold splitSlash
    simp only [List.foldr_cons]
    split <;> simp

theorem splitSlash_cons (c : Char) (cs : List Char) :
    splitSlash (c :: cs) = if c = '/' then [] :: splitSlash cs
      else (c :: (splitSlash cs).headD []) :: (splitSlash cs).tail := rfl

theorem joinSlash_single (a : List Char) : joinSlash [a] = a := by
  simp [joinSlash]

theorem joinSlash_cons_cons (a b : List Char) (r : List (List Char)) :
    joinSlash (a :: b :: r) = a ++ '/' :: joinSlash (b :: r) := by
  unfold joinSlash
  rw [List.intersperse_cons_cons]
  simp

theorem joinSlash_splitSlash (p : List Char) : joinSlash (splitSlash p) = p := by
  induction p with
  | nil => rfl
  | cons c cs ih =>
    obtain ⟨h, t, ht⟩ : ∃ h t, splitSlash cs = h :: t := by
      rcases e : splitSlash cs with - | ⟨h, t⟩
      · exact absurd e (splitSlash_ne_nil cs)
      · exact ⟨h, t, rfl⟩
    rw [ht] at ih
    rw [splitSlash_cons, ht]
    by_cases hc : c = '/'
    · subst hc
      rw [if_pos rfl, joinSlash_cons_cons, ih]
      simp
    · rw [if_neg hc]
      simp only [List.headD_cons, List.tail_cons]
      cases t with
      | nil =>
        rw [joinSlash_single] at ih
        rw [joinSlash_single, ih]
      | cons b r =>
        rw [joinSlash_cons_cons] at ih
        rw [joinSlash_cons_cons, List.cons_append, ← ih]

theorem joinSlash_concat (init : List (List Char)) (x : List Char) (h : init ≠ []) :
    joinSlash (init ++ [x]) = joinSlash init ++ '/' :: x := by
  induction init with
  | nil => exact absurd rfl h
  | cons a r ih =>
    cases r with
    | nil =>
      simp only [List.nil_append, List.cons_append]
      rw [joinSlash_cons_cons, joinSlash_single, joinSlash_single]
    | cons b s =>
      have ih' := ih (by simp)
      simp only [List.cons_append] at *
      rw [joinSlash_cons_cons, ih', joinSlash_cons_cons]
      simp

/-- No element produced by `splitSlash` contains a slash. -/
theorem splitSlash_no_slash (p : List Char) : ∀ x ∈ splitSlash p, '/' ∉ x := by
  induction p with
  | nil =>
    intro x hx
    simp only [show splitSlash [] = [[]] from rfl, List.mem_singleton] at hx
    simp [hx]
  | cons c cs ih =>
    intro x hx
    obtain ⟨h, t, ht⟩ : ∃ h t, splitSlash cs = h :: t := by
      rcases e : splitSlash cs with - | ⟨h, t⟩
      · exact absurd e (splitSlash_ne_nil cs)
      · exact ⟨h, t, rfl⟩
    rw [splitSlash_cons, ht] at hx
    by_cases hc : c = '/'
    · rw [if_pos hc] at hx
      rcases List.mem_cons.mp hx with he | hm
      · simp [he]
      · exact ih x (ht ▸ hm)
    · rw [if_neg hc] at hx
      simp only [List.headD_cons, List.tail_cons] at hx
      rcases List.mem_cons.mp hx with he | hm
      · subst he
        intro hmem
        rcases List.mem_cons.mp hmem with h1 | h2
        · exact hc h1.symm
        · exact ih h (ht ▸ List.mem_cons_self h t) h2
      · exact ih x (ht ▸ List.mem_cons_of_mem h hm)

theorem splitSlash_of_no_slash (x : List Char) (h : '/' ∉ x) : splitSlash x = [x] := by
  induction x with
  | nil => rfl
  | cons c cs ih =>
    have hc : c ≠ '/' := fun he => h (he ▸ List.mem_cons_self c cs)
    have hcs : '/' ∉ cs := fun hm => h (List.mem_cons_of_mem c hm)
    rw [splitSlash_cons, if_neg hc, ih hcs]
    rfl

theorem splitSlash_append_slash (x t : List Char) (h : '/' ∉ x) :
    splitSlash (x ++ '/' :: t) = x :: splitSlash t := by
  induction x with
  | nil =>
    rw [List.nil_append, splitSlash_cons, if_pos rfl]
  | cons c cs ih =>
    have hc : c ≠ '/' := fun he => h (he ▸ List.mem_cons_self c cs)
    have hcs : '/' ∉ cs := fun hm => h (List.mem_cons_of_mem c hm)
    rw [List.cons_append, splitSlash_cons, if_neg hc, ih hcs]
    simp

/-- `splitSlash` is a left inverse of `joinSlash` on non-empty lists of
slash-free elements. -/
theorem splitSlash_joinSlash (l : List (List Char)) (hl : ∀ x ∈ l, '/' ∉ x) (hne : l ≠ []) :
    splitSlash (joinSlash l) = l := by
  induction l with
  | nil => exact absurd rfl hne
  | cons x r ih =>
    cases r with
    | nil =>
      rw [joinSlash_single]
      exact splitSlash_of_no_slash x (hl x (by simp))
    | cons y s =>
      rw [joinSlash_cons_cons, splitSlash_append_slash _ _ (hl x (by simp)),
        ih (fun z hz => hl z (List.mem_cons_of_mem x hz)) (by simp)]

/-- The `path.Clean` loop pushes every element that is not empty, `.` or
`..`, so on such elements it is the identity (the output stack is the
reversed input). -/
theorem foldl_cleanStep (l : List (List Char))
    (hl : ∀ x ∈ l, x ≠ [] ∧ x ≠ ['.'] ∧ x ≠ ['.', '.']) :
    ∀ acc, l.foldl cleanStep acc = l.reverse ++ acc := by
  induction l with
  | nil => intro acc; simp
  | cons x r ih =>
    intro acc
    obtain ⟨hx1, hx2, hx3⟩ := hl x (by simp)
    rw [List.foldl_cons,
      show cleanStep acc x = x :: acc from by
        unfold cleanStep
        rw [if_neg (by simp [hx1, hx2]), if_neg hx3],
      ih (fun z hz => hl z (List.mem_cons_of_mem x hz)) (x :: acc)]
    simp

/-- `path.Clean` leaves a non-empty path with no empty, `.` or `..`
components unchanged. -/
theorem goPathClean_clean (l : List (List Char)) (hne : l ≠ [])
    (hslash : ∀ x ∈ l, '/' ∉ x)
    (hel : ∀ x ∈ l, x ≠ [] ∧ x ≠ ['.'] ∧ x ≠ ['.', '.']) :
    goPathClean (joinSlash l) = joinSlash l := by
  unfold goPathClean
  rw [splitSlash_joinSlash l hslash hne, foldl_cleanStep l hel [], List.append_nil,
    if_neg (by simp [hne]), List.reverse_reverse]

/-- On a clean relative path the parent prefix computed by `NewFs` (the
`path.Dir` part plus a slash, empty at the top level) followed by the
`path.Base` component reconstitutes the whole path: the probed object is
exactly the supplied root, seen from the handle's new parent root. -/
theorem parentRoot_base (p : List Char) (h : CleanRelPath p) :
    (if goPathDir p = ['.'] then [] else goPathDir p ++ ['/']) ++ goPathBase p = p := by
  obtain ⟨-, h2, h3, h4⟩ := h
  obtain ⟨init, a, hpa⟩ : ∃ init a, splitSlash p = init ++ [a] := by
    rcases List.eq_nil_or_concat (splitSlash p) with hsp | ⟨L, b, hsp⟩
    · exact absurd hsp (splitSlash_ne_nil p)
    · exact ⟨L, b, by rw [hsp, List.concat_eq_append]⟩
  unfold goPathDir goPathBase
  rw [hpa, List.dropLast_concat, List.getLastD_concat]
  cases init with
  | nil =>
    rw [show goPathClean (joinSlash []) = ['.'] from rfl, if_pos rfl, List.nil_append]
    rw [← joinSlash_splitSlash p, hpa, List.nil_append, joinSlash_single]
  | cons b r =>
    have hmem : ∀ x ∈ b :: r, x ∈ splitSlash p := by
      intro x hx
      rw [hpa]
      exact List.mem_append_left _ hx
    have hel : ∀ x ∈ b :: r, x ≠ [] ∧ x ≠ ['.'] ∧ x ≠ ['.', '.'] := fun x hx =>
      ⟨fun he => h2 (he ▸ hmem x hx), fun he => h3 (he ▸ hmem x hx),
       fun he => h4 (he ▸ hmem x hx)⟩
    rw [goPathClean_clean (b :: r) (by simp)
      (fun x hx => splitSlash_no_slash p x (hmem x hx)) hel]
    have hbne : b ≠ [] := (hel b (by simp)).1
    have hne : joinSlash (b :: r) ≠ ['.'] := by
      cases r with
      | nil =>
        rw [joinSlash_single]
        exact (hel b (by simp)).2.1
      | cons c s =>
        rw [joinSlash_cons_cons]
        intro he
        have hlen := congrArg List.length he
        rw [List.length_append] at hlen
        simp only [List.length_cons, List.length_nil] at hlen
        have hb1 : 1 ≤ b.length := by
          cases b with
          | nil => exact absurd rfl hbne
          | cons x xs => simp
        omega
    rw [if_neg hne]
    rw [← joinSlash_splitSlash p, hpa, joinSlash_concat _ _ (by simp)]
    simp

end azureblob

/-- Claim C4: when the supplied root has a non-empty path inside the
container and the probe finds an object there, `NewFs` returns a handle
rooted at the object's parent directory together with the `ErrorIsFile`
result (and the parent root plus the probed base component reconstitute
the original path); when the probe reports `ErrorObjectNotFound`, the
original root is restored and the handle is returned with no error. -/
theorem azureblob_newfs_file_probe (name : String) (root : List Char)
    (opt : azureblob.Options) (sas : List Char)
    (hcut : ¬ opt.uploadCutoff > azureblob.maxUploadCutoff)
    (hchunk : ¬ opt.chunkSize > azureblob.maxChunkSize)
    (hacct : opt.account ≠ "") (hkey : opt.key ≠ "")
    (hdir : (azureblob.parsePath root).2 ≠ [])
    (hclean : azureblob.CleanRelPath (azureblob.parsePath root).2) :
    (azureblob.NewFs name root opt sas .found =
      ⟨some ⟨name, (azureblob.parsePath root).1,
             (if azureblob.goPathDir (azureblob.parsePath root).2 = ['.'] then []
              else azureblob.goPathDir (azureblob.parsePath root).2 ++ ['/']), opt⟩,
       true, none⟩) ∧
    ((if azureblob.goPathDir (azureblob.parsePath root).2 = ['.'] then []
      else azureblob.goPathDir (azureblob.parsePath root).2 ++ ['/']) ++
        azureblob.goPathBase (azureblob.parsePath root).2 = (azureblob.parsePath root).2) ∧
    (azureblob.NewFs name root opt sas .notFound =
      ⟨some ⟨name, (azureblob.parsePath root).1, (azureblob.parsePath root).2 ++ ['/'], opt⟩,
       false, none⟩) := by
  have hdecomp := azureblob.parentRoot_base _ hclean
  rcases hpp : azureblob.parsePath root with ⟨c0, dir⟩
  rw [hpp] at hdir hdecomp
  dsimp only at hdir hdecomp ⊢
  refine ⟨?_, hdecomp, ?_⟩ <;>
  · unfold azureblob.NewFs azureblob.NewFsWithContainer
    rw [hpp]
    dsimp only
    rw [if_neg hcut, if_neg hchunk,
      if_pos (show opt.account ≠ "" ∧ opt.key ≠ "" from ⟨hacct, hkey⟩), if_pos hdir]

/-- Witness for claim C4: `NewFs` on root `bucket/dir/file.txt` with
account+key credentials; the found-probe handle points at `dir/` with the
is-file result; the not-found probe restores root `dir/file.txt/`. -/
theorem azureblob_newfs_file_probe_witness :
    (azureblob.parsePath "bucket/dir/file.txt".toList).2 ≠ [] ∧
    azureblob.CleanRelPath (azureblob.parsePath "bucket/dir/file.txt".toList).2 ∧
    azureblob.NewFs "remote" "bucket/dir/file.txt".toList
        ⟨"acct", "key", "", "", azureblob.defaultUploadCutoff, azureblob.defaultChunkSize⟩
        [] .found =
      ⟨some ⟨"remote", "bucket".toList, "dir/".toList,
             ⟨"acct", "key", "", "", azureblob.defaultUploadCutoff,
              azureblob.defaultChunkSize⟩⟩, true, none⟩ ∧
    azureblob.NewFs "remote" "bucket/dir/file.txt".toList
        ⟨"acct", "key", "", "", azureblob.defaultUploadCutoff, azureblob.defaultChunkSize⟩
        [] .notFound =
      ⟨some ⟨"remote", "bucket".toList, "dir/file.txt/".toList,
             ⟨"acct", "key", "", "", azureblob.defaultUploadCutoff,
              azureblob.defaultChunkSize⟩⟩, false, none⟩ := by
  have h := azureblob_newfs_file_probe "remote" "bucket/dir/file.txt".toList
    ⟨"acct", "key", "", "", azureblob.defaultUploadCutoff, azureblob.defaultChunkSize⟩
    [] (by decide) (by decide) (by decide) (by decide) (by decide) (by decide)
  exact ⟨by decide, by decide, h.1, h.2.2⟩

/-- Claim C5: for an object whose MD5 is stored base64-encoded (as the
azureblob backend stores it), `Hash(MD5)` returns the digest as a
lowercase-hex string; when the MD5 is not known the empty string is
returned with no error (and any other hash kind is unsupported). -/
theorem azureblob_hash_md5_lowercase_hex (o : azureblob.Object) (digest : List Nat)
    (hmd5 : o.md5 = b64EncodeList digest)
    (hbytes : ∀ x ∈ digest, x < 256) (hne : digest ≠ []) :
    azureblob.Object.Hash o .md5 = .ok (hexEncodeList digest) ∧
    (∀ c ∈ hexEncodeList digest, c ∈ hexAlphabet) ∧
    (∀ o2 : azureblob.Object, o2.md5 = [] →
       azureblob.Object.Hash o2 .md5 = .ok []) ∧
    (∀ (o2 : azureblob.Object) (k : azureblob.HashKind), k ≠ .md5 →
       azureblob.Object.Hash o2 k = .error .unsupportedHash) := by
  refine ⟨?_, hexEncodeList_lower digest, ?_, ?_⟩
  · unfold azureblob.Object.Hash
    rw [if_neg (by simp), hmd5, if_neg (b64EncodeList_ne_nil digest hne),
      b64_roundtrip digest hbytes]
  · intro o2 h2
    unfold azureblob.Object.Hash
    rw [if_neg (by simp), if_pos h2]
  · intro o2 k hk
    unfold azureblob.Object.Hash
    rw [if_pos hk]

/-- Witness for claim C5: the canonical empty-input MD5 digest
`d41d8cd98f00b204e9800998ecf8427e`, stored base64-encoded. -/
theorem azureblob_hash_md5_lowercase_hex_witness :
    (azureblob.Object.mk [] goZeroTime
        (b64EncodeList [212, 29, 140, 217, 143, 0, 178, 4, 233, 128, 9, 152, 236, 248, 66, 126])
        0 []).md5 =
      b64EncodeList [212, 29, 140, 217, 143, 0, 178, 4, 233, 128, 9, 152, 236, 248, 66, 126] ∧
    (∀ x ∈ [212, 29, 140, 217, 143, 0, 178, 4, 233, 128, 9, 152, 236, 248, 66, 126], x < 256) ∧
    azureblob.Object.Hash
        (azureblob.Object.mk [] goZeroTime
          (b64EncodeList [212, 29, 140, 217, 143, 0, 178, 4, 233, 128, 9, 152, 236, 248, 66, 126])
          0 [])
        .md5 =
      .ok (hexEncodeList [212, 29, 140, 217, 143, 0, 178, 4, 233, 128, 9, 152, 236, 248, 66, 126]) ∧
    hexEncodeList [212, 29, 140, 217, 143, 0, 178, 4, 233, 128, 9, 152, 236, 248, 66, 126] =
      "d41d8cd98f00b204e9800998ecf8427e".toList :=
  ⟨rfl, by decide,
   (azureblob_hash_md5_lowercase_hex _
      [212, 29, 140, 217, 143, 0, 178, 4, 233, 128, 9, 152, 236, 248, 66, 126]
      rfl (by decide) (by decide)).1,
   by decide⟩

/-- Claim C6: `Mkdir` is idempotent — a container/collection that already
exists yields no error (azureblob maps `ContainerAlreadyExists` to
success; webdav maps MKCOL 405 to success) — and on the bucket backend a
successful `Mkdir` is memoized in the per-`Fs` state, so a second call
performs no remote call and returns no error. -/
theorem mkdir_idempotent_memoized :
    (∀ st : azureblob.MkState,
       (azureblob.Mkdir st .containerAlreadyExists).err = none) ∧
    (∀ (st : azureblob.MkState) (c : azureblob.CreateOutcome),
       (azureblob.Mkdir st c).err = none →
       (azureblob.Mkdir st c).st.containerOK = true) ∧
    (∀ (st : azureblob.MkState) (c c' : azureblob.CreateOutcome),
       (azureblob.Mkdir st c).err = none →
       azureblob.Mkdir (azureblob.Mkdir st c).st c' =
         ⟨(azureblob.Mkdir st c).st, 0, none⟩) ∧
    (∀ (dirPath : List Char) (pr : Option FsErr) (rc : webdav.CallOutcome),
       webdav.Mkdir dirPath (.httpError 405) pr rc = none) := by
  refine ⟨?_, ?_, ?_, ?_⟩
  · intro st
    unfold azureblob.Mkdir
    by_cases h : st.containerOK <;> simp [h]
  · intro st c h
    unfold azureblob.Mkdir at *
    by_cases hok : st.containerOK
    · simp [hok]
    · cases c <;> simp [hok] at h ⊢
  · intro st c c' h
    have hok : (azureblob.Mkdir st c).st.containerOK = true := by
      unfold azureblob.Mkdir at *
      by_cases hok : st.containerOK
      · simp [hok]
      · cases c <;> simp [hok] at h ⊢
    rcases e : (azureblob.Mkdir st c).st with ⟨cok, cdel⟩
    rw [e] at hok
    dsimp only at hok
    subst hok
    simp [azureblob.Mkdir]
  · intro dirPath pr rc
    unfold webdav.Mkdir webdav.mkdir webdav.mkdirLow
    by_cases hd : dirPath = [] <;> simp [hd]

/-- Witness for claim C6: a fresh handle creating a container that already
exists, then the memoized second call. -/
theorem mkdir_idempotent_memoized_witness :
    (azureblob.Mkdir ⟨false, false⟩ .containerAlreadyExists).err = none ∧
    azureblob.Mkdir (azureblob.Mkdir ⟨false, false⟩ .containerAlreadyExists).st .ok =
      ⟨(azureblob.Mkdir ⟨false, false⟩ .containerAlreadyExists).st, 0, none⟩ ∧
    webdav.Mkdir "a/b".toList (.httpError 405) none .ok = none :=
  ⟨mkdir_idempotent_memoized.1 ⟨false, false⟩,
   mkdir_idempotent_memoized.2.2.1 ⟨false, false⟩ .containerAlreadyExists .ok (by decide),
   mkdir_idempotent_memoized.2.2.2 "a/b".toList none .ok⟩

/-- Claim C7: `Rmdir` returns `ErrorDirectoryNotEmpty` and deletes nothing
whenever the emptiness check finds an entry (on azureblob the check lists
recursively from the `Fs` root, so any entry inside the directory shows
up); the container/collection is deleted only when the check found no
entries (and, for azureblob, only at the container root). -/
theorem rmdir_requires_empty :
    (∀ (froot dir : List Char) (entries : List (List Char))
       (del : azureblob.DeleteOutcome) (e : List Char), e ∈ entries →
       azureblob.Rmdir froot dir (.ok entries) del = ⟨some .directoryNotEmpty, false⟩) ∧
    (∀ (froot dir : List Char) (lr : Except FsErr (List (List Char)))
       (del : azureblob.DeleteOutcome),
       (azureblob.Rmdir froot dir lr del).deletedContainer = true →
       lr = .ok [] ∧ froot = [] ∧ dir = []) ∧
    (∀ del : webdav.CallOutcome,
       webdav.Rmdir (.ok true) del = ⟨some .directoryNotEmpty, false⟩) ∧
    (∀ (ner : Except FsErr Bool) (del : webdav.CallOutcome),
       (webdav.Rmdir ner del).deleted = true → ner = .ok false) := by
  refine ⟨?_, ?_, ?_, ?_⟩
  · intro froot dir entries del e he
    have hne : entries ≠ [] := by
      intro hn
      rw [hn] at he
      exact List.not_mem_nil e he
    simp [azureblob.Rmdir, azureblob.isEmpty, hne]
  · intro froot dir lr del h
    rcases lr with err | entries
    · simp [azureblob.Rmdir, azureblob.isEmpty] at h
    · by_cases hne : entries = []
      · subst hne
        simp only [azureblob.Rmdir, azureblob.isEmpty, if_true] at h
        by_cases hr : froot ≠ [] ∨ dir ≠ []
        · rw [if_pos hr] at h
          simp at h
        · push_neg at hr
          exact ⟨rfl, hr.1, hr.2⟩
      · simp [azureblob.Rmdir, azureblob.isEmpty, hne] at h
  · intro del
    unfold webdav.Rmdir webdav.purgeCheck
    simp
  · intro ner del h
    unfold webdav.Rmdir webdav.purgeCheck at h
    rcases ner with e | ne
    · simp at h
    · cases ne
      · rfl
      · simp at h

/-- Witness for claim C7: a directory holding one entry is refused; a
successful webdav delete implies the check saw an empty directory. -/
theorem rmdir_requires_empty_witness :
    azureblob.Rmdir [] [] (.ok ["x.txt".toList]) .ok = ⟨some .directoryNotEmpty, false⟩ ∧
    webdav.Rmdir (.ok true) .ok = ⟨some .directoryNotEmpty, false⟩ ∧
    ((webdav.Rmdir (.ok false) .ok).deleted = true → (.ok false : Except FsErr Bool) = .ok false) :=
  ⟨rmdir_requires_empty.1 [] [] ["x.txt".toList] .ok "x.txt".toList (by decide),
   rmdir_requires_empty.2.2.1 .ok,
   rmdir_requires_empty.2.2.2 (.ok false) .ok⟩

/-- Claim C10: azureblob `NewFs` validates its options before anything
else: an `upload_cutoff` above 256 MiB, or a `chunk_size` above 100 MiB,
is rejected with an error, independently of the probe outcome and with no
handle constructed; consequently every handle `NewFs` does return carries
options within those bounds (and carries them unchanged, so the bounds
hold for the handle's lifetime — the source never writes to `f.opt`). -/
theorem azureblob_newfs_validates_options (name : String) (root : List Char)
    (opt : azureblob.Options) (sas : List Char) :
    (opt.uploadCutoff > azureblob.maxUploadCutoff →
       ∀ probe, azureblob.NewFs name root opt sas probe =
         ⟨none, false, some .uploadCutoffTooBig⟩) ∧
    (¬ opt.uploadCutoff > azureblob.maxUploadCutoff →
     opt.chunkSize > azureblob.maxChunkSize →
       ∀ probe, azureblob.NewFs name root opt sas probe =
         ⟨none, false, some .chunkSizeTooBig⟩) ∧
    (∀ probe f, (azureblob.NewFs name root opt sas probe).fs = some f →
       f.opt.uploadCutoff ≤ azureblob.maxUploadCutoff ∧
       f.opt.chunkSize ≤ azureblob.maxChunkSize ∧ f.opt = opt) := by
  refine ⟨?_, ?_, ?_⟩
  · intro h1 probe
    unfold azureblob.NewFs
    rw [if_pos h1]
  · intro h1 h2 probe
    unfold azureblob.NewFs
    rw [if_neg h1, if_pos h2]
  · intro probe f hf
    by_cases h1 : opt.uploadCutoff > azureblob.maxUploadCutoff
    · unfold azureblob.NewFs at hf
      rw [if_pos h1] at hf
      simp at hf
    · by_cases h2 : opt.chunkSize > azureblob.maxChunkSize
      · unfold azureblob.NewFs at hf
        rw [if_neg h1, if_pos h2] at hf
        simp at hf
      · have hopt : f.opt = opt := by
          unfold azureblob.NewFs azureblob.NewFsWithContainer at hf
          rw [if_neg h1, if_neg h2] at hf
          rcases hpp : azureblob.parsePath root with ⟨c0, dir⟩
          rw [hpp] at hf
          dsimp only at hf
          repeat' split at hf
          all_goals simp_all
          all_goals rw [← hf]
        rw [hopt]
        exact ⟨by omega, by omega, rfl⟩

/-- Witness for claim C10: a 300 MiB upload cutoff and a 200 MiB chunk
size are both rejected regardless of the probe outcome. -/
theorem azureblob_newfs_validates_options_witness :
    (314572800 : Nat) > azureblob.maxUploadCutoff ∧
    azureblob.NewFs "r" "bucket".toList
        ⟨"a", "k", "", "", 314572800, azureblob.defaultChunkSize⟩ [] .found =
      ⟨none, false, some .uploadCutoffTooBig⟩ ∧
    (209715200 : Nat) > azureblob.maxChunkSize ∧
    azureblob.NewFs "r" "bucket".toList
        ⟨"a", "k", "", "", azureblob.defaultUploadCutoff, 209715200⟩ [] .found =
      ⟨none, false, some .chunkSizeTooBig⟩ :=
  ⟨by decide,
   (azureblob_newfs_validates_options "r" "bucket".toList
      ⟨"a", "k", "", "", 314572800, azureblob.defaultChunkSize⟩ []).1 (by decide) .found,
   by decide,
   (azureblob_newfs_validates_options "r" "bucket".toList
      ⟨"a", "k", "", "", azureblob.defaultUploadCutoff, 209715200⟩ []).2.1 (by decide)
      (by decide) .found⟩
